import Mathlib

/-!
Verification of the tirf-ui protocol execution engine and HAL client.

This file shallowly embeds the Python sources (`hal.py`, `sequencing_protocol.py`,
`preview.py`) as executable Lean definitions and proves properties of them.
Machine state that Python mutates in place (the run-context path nodes, the run
state counters) is threaded explicitly; node objects, which are aliased between
parent and child contexts, are represented by indices into an explicit store.
-/

namespace Tirf

/-- Python dicts whose contents the engine forwards verbatim are modelled as
association lists of strings. -/
abbrev ArgDict := List (String × String)

/-- `Union[str, bool]` values, as they arrive in HAL responses. -/
inductive PyVal where
  | str (s : String)
  | bool (b : Bool)
deriving DecidableEq

/-- The exceptions raised by `hal.py`: `HalError(msg)`, `TimeoutError(msg)`,
`InterruptedError`. There is a single `HalError` class in the source. -/
inductive PyError where
  | halError (msg : String)
  | timeoutError (msg : String)
  | interruptedError
deriving DecidableEq

/-- `hal.boost_bool`: `value_raw if type(value_raw) == bool else value_raw == "true"`. -/
def boost_bool : PyVal → Bool
  | .bool b => b
  | .str s => s == "true"

/-- A parsed HAL response: `{"success": ..., "error_message": ..., "response": ...}`. -/
structure HalResponse where
  success : PyVal
  error_message : String
  response : ArgDict
deriving DecidableEq

/-- Result of `Hal.run_command`: a normal return, a raised exception, or
(model artifact) fuel exhaustion standing for an infinite poll loop. -/
inductive RunCmdResult where
  | ret (d : ArgDict)
  | exn (e : PyError)
  | diverge
deriving DecidableEq

/-- `try_count < tries`, where `tries = none` models `float("inf")`. -/
def triesLt (tc : Nat) : Option Nat → Bool
  | none => true
  | some n => tc < n

/-- `try_count >= tries`, where `tries = none` models `float("inf")`. -/
def triesGe (tc : Nat) : Option Nat → Bool
  | none => false
  | some n => n ≤ tc

/-- `Hal.run_command` (the `thread is not None` path, `hal.py` lines 62-94).
The socket is modelled by `reads`: the outcome of the bounded 1-second `recv`
of each poll round (`none` = `socket.timeout`), and the cancellation flag by
`intr`, indexed by the poll round.  The loop continues only on a timeout, so
the round counter and Python's `try_count` advance in lockstep and are merged
into the single argument `tc`.  On a completed read the response is parsed:
a falsy `success` raises `HalError(error_message)`, otherwise the embedded
`response` object is returned.  When the loop exits without a read, Python's
`for`-`else` raises `TimeoutError` if `try_count >= tries` and otherwise
returns the empty dict `{}`. -/
def run_command (intr : Nat → Bool) (reads : Nat → Option HalResponse)
    (tries : Option Nat) : Nat → Nat → RunCmdResult
  | 0, _ => .diverge
  | fuel + 1, tc =>
    if !intr tc && triesLt tc tries then
      match reads tc with
      | some resp =>
        if boost_bool resp.success then .ret resp.response
        else .exn (.halError resp.error_message)
      | none => run_command intr reads tries fuel (tc + 1)
    else if triesGe tc tries then .exn (.timeoutError "HAL took too long to respond")
    else .ret []

/-- Whether a `run_command` outcome is a raised `TimeoutError`. -/
def is_timeout_result : RunCmdResult → Bool
  | .exn (.timeoutError _) => true
  | _ => false

/-- The message of the error raised when every heater-shutdown attempt failed
(`hal.py` line 114). -/
def heater_fail_message (tries : Nat) : String :=
  "lp0 on fire: failed to turn off the heater after " ++ toString tries ++ " tries. RESTART SYSTEM."

/-- Observable actions of `Hal.disable_heater`: one per command attempt, plus
the `time.sleep(1)` executed after each failed attempt. -/
inductive HeaterAction where
  | attempt (i : Nat)
  | sleptOne
deriving DecidableEq

/-- The retry loop of `Hal.disable_heater` (`hal.py` lines 102-114).  `ar i` is
the outcome of the `i`-th `run_command` attempt.  Returns the action trace and
the raised error, if any: Python's `for`-`else` raises
`HalError(heater_fail_message tries)` when all `tries` attempts failed. -/
def disable_heater_aux (ar : Nat → Except PyError ArgDict) (tries : Nat) :
    Nat → Nat → List HeaterAction × Option PyError
  | 0, _ => ([], some (.halError (heater_fail_message tries)))
  | r + 1, i =>
    match ar i with
    | .ok _ => ([.attempt i], none)
    | .error _ =>
      let rest := disable_heater_aux ar tries r (i + 1)
      (.attempt i :: .sleptOne :: rest.1, rest.2)

/-- `Hal.disable_heater(thread, tries=5)`. -/
def disable_heater (ar : Nat → Except PyError ArgDict) (tries : Nat := 5) :
    List HeaterAction × Option PyError :=
  disable_heater_aux ar tries tries 0

/-- Outcome of `Wait.run`'s sleep (`sequencing_protocol.py` lines 280-296):
either the full duration elapsed, or `InterruptedError` was raised at virtual
time `t` (milliseconds since the step began). -/
inductive WaitOutcome where
  | completed (t : Nat)
  | interruptedAt (t : Nat)
deriving DecidableEq

/-- `thread.isInterruptionRequested()` at virtual time `now`, where `cancelReq`
is the time at which cancellation was requested (`none` = never). -/
def requested (cancelReq : Option Nat) (now : Nat) : Bool :=
  match cancelReq with
  | none => false
  | some tc => tc ≤ now

/-- The sliced sleep loop of `Wait.run`: while any duration remains, sleep
`min remaining 1000` ms, then re-check the interruption flag. -/
def wait_loop (cancelReq : Option Nat) : Nat → Nat → WaitOutcome
  | 0, now => .completed now
  | remaining + 1, now =>
    let d := min (remaining + 1) 1000
    let now' := now + d
    if requested cancelReq now' then .interruptedAt now'
    else wait_loop cancelReq (remaining + 1 - d) now'
  termination_by remaining _ => remaining
  decreasing_by omega

/-- `Wait.run` for a `QThread`-hosted run: the initial dispatch-time
cancellation check of `Event.run`, then the sliced sleep. -/
def wait_run (cancelReq : Option Nat) (duration_ms : Nat) : WaitOutcome :=
  if requested cancelReq 0 then .interruptedAt 0
  else wait_loop cancelReq duration_ms 0

/-! ### Preview stream decoder (`preview.py`) -/

/-- `PREVIEW_HEADER_SIZE = math.ceil(bitstruct.calcsize("u4u12u12u6u26") / 8)`. -/
def PREVIEW_HEADER_SIZE : Nat := (4 + 12 + 12 + 6 + 26 + 7) / 8

/-- Big-endian accumulation of a byte list into a natural number. -/
def bytes_to_nat (bs : List Nat) : Nat := bs.foldl (fun acc b => acc * 256 + b) 0

/-- `bitstruct.unpack("u4u12u12u6u26", header)`: the five packed fields, MSB
first, of the 8 header bytes (the final 4 bits are padding). -/
def decode_header (bs : List Nat) : Nat × Nat × Nat × Nat × Nat :=
  let n := bytes_to_nat bs
  (n / 2 ^ 60, n / 2 ^ 48 % 2 ^ 12, n / 2 ^ 36 % 2 ^ 12, n / 2 ^ 30 % 2 ^ 6, n / 2 ^ 4 % 2 ^ 26)

/-- A stream socket: the pending byte stream plus a call counter used to
index the chunking oracle. -/
structure MockSocket where
  stream : List Nat
  callIdx : Nat
deriving DecidableEq

/-- `s.recv(req)`: returns at most `req` bytes; the chunking oracle `sizes`
caps how many bytes call number `callIdx` may return (a read may return fewer
bytes than requested). -/
def MockSocket.recv (sk : MockSocket) (req : Nat) (sizes : Nat → Nat) :
    List Nat × MockSocket :=
  let n := min req (sizes sk.callIdx)
  (sk.stream.take n, ⟨sk.stream.drop n, sk.callIdx + 1⟩)

/-- A decoded preview frame, as handed to `QImage(image_bytes, width, height,
QImage.Format(imageFormat))`. -/
structure Frame where
  width : Nat
  height : Nat
  imageFormat : Nat
  bytes : List Nat
deriving DecidableEq

/-- The payload-assembly loop of `PreviewThread.read_preview_image`:
`while len(image_bytes) < image_size: image_bytes.extend(s.recv(image_size - len(image_bytes)))`.
`none` models non-completion within `fuel` reads. -/
def read_image_bytes (sizes : Nat → Nat) :
    Nat → Nat → List Nat → MockSocket → Option (List Nat × MockSocket)
  | 0, _, _, _ => none
  | fuel + 1, size, acc, sk =>
    if acc.length < size then
      let pr := sk.recv (size - acc.length) sizes
      read_image_bytes sizes fuel size (acc ++ pr.1) pr.2
    else some (acc, sk)

/-- `PreviewThread.read_preview_image` (`preview.py` lines 46-57): read the
fixed-size header (the `assert len(header) == PREVIEW_HEADER_SIZE` and
`assert version == 0` failures are modelled as `none`), decode the five packed
fields, then assemble exactly `image_size` payload bytes across partial reads
and return the decoded frame. -/
def read_preview_image (sizes : Nat → Nat) (fuel : Nat) (sk : MockSocket) :
    Option (Frame × MockSocket) :=
  let pr := sk.recv PREVIEW_HEADER_SIZE sizes
  if pr.1.length = PREVIEW_HEADER_SIZE then
    match decode_header pr.1 with
    | (version, width, height, imageFormat, image_size) =>
      if version = 0 then
        match read_image_bytes sizes fuel image_size [] pr.2 with
        | some (bs, sk2) => some (⟨width, height, imageFormat, bs⟩, sk2)
        | none => none
      else none
  else none

/-! ### Protocol tree model (`sequencing_protocol.py`) -/

/-- `MAX_TEMPERATURE_WAIT_S = 10 * 60`. -/
def MAX_TEMPERATURE_WAIT_S : Nat := 10 * 60

/-- `MAX_TEMPERATURE_HOLD_S = 8 * 60 * 60`. -/
def MAX_TEMPERATURE_HOLD_S : Nat := 8 * 60 * 60

/-- The step tree: one constructor per `Event` subclass.  Each carries
`label`, `protocol_line`, `protocol_depth`, then the subclass fields.
`ImageSequence`'s `imaging_args` dict is split into its `"images"` list and
the remaining keys; `SetTemperature` keeps the `temperature_kelvin` value. -/
inductive Event where
  | Wait (label : String) (protocol_line protocol_depth : Nat) (duration_ms : Nat)
  | ImageSequence (label : String) (protocol_line protocol_depth : Nat)
      (images : List ArgDict) (imaging_rest : ArgDict)
  | SetTemperature (label : String) (protocol_line protocol_depth : Nat)
      (temperature_kelvin : Int)
  | Group (label : String) (protocol_line protocol_depth : Nat)
      (events : List Event) (iterations : Nat)
  | ReactionCycle (label : String) (protocol_line protocol_depth : Nat)
      (events : List Event) (cleaving : ArgDict) (iterations : Nat)

/-- The `label` field shared by every `Event`. -/
def Event.label : Event → String
  | .Wait l _ _ _ => l
  | .ImageSequence l _ _ _ _ => l
  | .SetTemperature l _ _ _ => l
  | .Group l _ _ _ _ => l
  | .ReactionCycle l _ _ _ _ _ => l

/-- The `protocol_line` field shared by every `Event`. -/
def Event.protocol_line : Event → Nat
  | .Wait _ n _ _ => n
  | .ImageSequence _ n _ _ _ => n
  | .SetTemperature _ n _ _ => n
  | .Group _ n _ _ _ => n
  | .ReactionCycle _ n _ _ _ _ => n

/-- The `protocol_depth` field shared by every `Event`. -/
def Event.protocol_depth : Event → Nat
  | .Wait _ _ d _ => d
  | .ImageSequence _ _ d _ _ => d
  | .SetTemperature _ _ d _ => d
  | .Group _ _ d _ _ => d
  | .ReactionCycle _ _ d _ _ _ => d

/-- The class variable `short_type` of each `Event` subclass. -/
def Event.short_type : Event → String
  | .Wait .. => "W"
  | .ImageSequence .. => "I"
  | .SetTemperature .. => "T"
  | .Group .. => "G"
  | .ReactionCycle .. => "R"

/-- Whether a step is a leaf (not a `Group` or `ReactionCycle`). -/
def Event.is_leaf : Event → Bool
  | .Group .. => false
  | .ReactionCycle .. => false
  | _ => true

mutual

/-- `Event.__iter__`: pre-order flattening (yield self, then every child's
flattening in order; only containers have children). -/
def Event.toList : Event → List Event
  | .Group l n d events it => .Group l n d events it :: eventsToList events
  | .ReactionCycle l n d events c it => .ReactionCycle l n d events c it :: eventsToList events
  | e => [e]

def eventsToList : List Event → List Event
  | [] => []
  | e :: rest => e.toList ++ eventsToList rest

end

/-- A schema-valid protocol description (`*.454sp.json` after
`validate_protocol_json`): one variant per supported `event_type`, carrying
exactly the arguments `load_protocol_json` reads. -/
inductive PJson where
  | Wait (label : String) (duration_ms : Nat)
  | ImageSequence (label : String) (images : List ArgDict) (imaging_rest : ArgDict)
  | SetTemperature (label : String) (temperature_kelvin : Int)
  | Group (label : String) (events : List PJson) (iterations : Nat)
  | ReactionCycle (label : String) (events : List PJson) (cleaving : ArgDict) (iterations : Nat)

mutual

/-- The number of tree nodes a description denotes (itself plus descendants). -/
def PJson.size : PJson → Nat
  | .Group _ events _ => 1 + sizeList events
  | .ReactionCycle _ events _ _ => 1 + sizeList events
  | _ => 1

def PJson.sizeList : List PJson → Nat
  | [] => 0
  | p :: rest => p.size + sizeList rest

end

mutual

/-- `load_protocol_json(protocol_json, protocol_line=0, depth=0)`
(`sequencing_protocol.py` lines 311-372), returning the built `Event` and its
`event_len`.  `loadChildren` is the loop over `args["events"]`: it threads
`next_protocol_line` and accumulates the children and the sum of their
lengths. -/
def load_protocol_json : PJson → Nat → Nat → Event × Nat
  | .Wait label dm, protocol_line, depth => (.Wait label protocol_line depth dm, 1)
  | .ImageSequence label imgs rest, protocol_line, depth =>
      (.ImageSequence label protocol_line depth imgs rest, 1)
  | .SetTemperature label t, protocol_line, depth =>
      (.SetTemperature label protocol_line depth t, 1)
  | .Group label events iterations, protocol_line, depth =>
      let pr := loadChildren events (protocol_line + 1) (depth + 1)
      (.Group label protocol_line depth pr.1 iterations, 1 + pr.2)
  | .ReactionCycle label events cleaving iterations, protocol_line, depth =>
      let pr := loadChildren events (protocol_line + 1) (depth + 1)
      (.ReactionCycle label protocol_line depth pr.1 cleaving iterations, 1 + pr.2)

def loadChildren : List PJson → Nat → Nat → List Event × Nat
  | [], _, _ => ([], 0)
  | p :: rest, next_protocol_line, depth =>
      let pr := load_protocol_json p next_protocol_line depth
      let prs := loadChildren rest (next_protocol_line + pr.2) depth
      (pr.1 :: prs.1, pr.2 + prs.2)

end

/-- Whether the first child of a container sits on the line right after it. -/
def first_child_line_ok : Event → Bool
  | .Group _ n _ (c :: _) _ => c.protocol_line == n + 1
  | .ReactionCycle _ n _ (c :: _) _ _ => c.protocol_line == n + 1
  | _ => true

/-! ### Run context and execution engine (`sequencing_protocol.py`) -/

/-- A `RunContextNode`: a reference to its `Event` plus the optional
`step_index` and `iteration` (the wall-clock `start_time` is not modelled).
Node objects are mutable and aliased between parent and child contexts, so
they live in a store and contexts hold indices. -/
structure NodeData where
  event : Event
  step_index : Option Nat := none
  iteration : Option Nat := none

/-- Placeholder node used to totalize out-of-range store lookups (such
lookups would be `IndexError`s in Python and never occur in a run). -/
def dummyNode : NodeData := ⟨.Wait "" 0 0 0, none, none⟩

/-- In-place update of node number `i` of the store (no-op when out of
range, which never occurs in a run). -/
def store_set (store : List NodeData) (i : Nat) (f : NodeData → NodeData) :
    List NodeData :=
  match store[i]? with
  | some nd => store.set i (f nd)
  | none => store

/-- A `RunContext`: the path of node references plus the run's output root.
The HAL, the `RunState` and the thread, which Python shares by reference, are
carried in the engine state instead. -/
structure RunContext where
  path : List Nat
  root_dir : String
deriving DecidableEq

/-- `RunContext.output_dir`: `return self.root_dir`. -/
def output_dir (c : RunContext) : String := c.root_dir

/-- Dereference a context's path against the store. -/
def resolve_path (store : List NodeData) (path : List Nat) : List NodeData :=
  path.map (fun i => (store[i]?).getD dummyNode)

/-- `RunContextNode.__str__`: `short_type`, then `i{iteration}` if set, then
`s{step_index}` if set. -/
def NodeData.node_str (nd : NodeData) : String :=
  let o := nd.event.short_type
  let o := match nd.iteration with
    | some i => o ++ "i" ++ toString i
    | none => o
  match nd.step_index with
  | some si => o ++ "s" ++ toString si
  | none => o

/-- `RunContext.__str__`: the node strings joined with `"-"`. -/
def snap_str (snap : List NodeData) : String :=
  String.intercalate "-" (snap.map NodeData.node_str)

/-- `str(context)` for a context resolved against the current store. -/
def context_str (store : List NodeData) (c : RunContext) : String :=
  snap_str (resolve_path store c.path)

/-- `RunContext.create_child_context(event, step_index, iteration)`
(`sequencing_protocol.py` lines 50-61).  `self.path.copy()` is a shallow list
copy, so the child's path shares the receiver's node objects; `last_node =
child_context.path[-1]` is therefore the receiver's own last node, and the
`step_index`/`iteration` assignments (performed only when the argument is not
`None`) mutate it in place.  Returns the updated store and the child context. -/
def create_child_context (store : List NodeData) (c : RunContext) (event : Event)
    (step_index iteration : Option Nat) : List NodeData × RunContext :=
  let child_id := store.length
  let store1 := store ++ [{ event := event }]
  let last_id := c.path.getLastD 0
  let store2 := match step_index with
    | some si => store_set store1 last_id (fun nd => { nd with step_index := some si })
    | none => store1
  let store3 := match iteration with
    | some it => store_set store2 last_id (fun nd => { nd with iteration := some it })
    | none => store2
  (store3, { c with path := c.path ++ [child_id] })

/-- `RunState`: the run-wide mutable counters. -/
structure RunState where
  sequence_number : Nat := 0
  cycle_number : Nat := 0
deriving DecidableEq

/-- `RunState.get_next_sequence_number(reserve=1)`: returns the current value
and advances the counter by `reserve`. -/
def RunState.get_next_sequence_number (s : RunState) (reserve : Nat := 1) :
    Nat × RunState :=
  (s.sequence_number, { s with sequence_number := s.sequence_number + reserve })

/-- The JSON commands the engine sends through `hal.run_command`, in
structured form. -/
inductive HalCommand where
  | run_image_sequence (label : String) (images : List ArgDict)
      (imaging_rest : ArgDict) (out_dir : String)
  | wait_for_temperature (target_temperature_kelvin : Int) (wait_time_s hold_time_s : Nat)
  | cleave (cleave_args : ArgDict) (out_dir : String)

/-- Observable events of a run: an invocation of the registered
`event_run_callback` (with the resolved context it received), a sleep, or a
HAL command. -/
inductive TraceItem where
  | notify (snap : List NodeData)
  | slept (ms : Nat)
  | halCmd (cmd : HalCommand)

/-- The engine state threaded through a run: the node store, the shared
`RunState`, the observable trace, and whether an `event_run_callback` is
registered on the root event. -/
structure EngineState where
  store : List NodeData
  run_state : RunState
  trace : List TraceItem
  callback_set : Bool := true

/-- The body of `Event.run` (the base class): notify the listener registered
on the root event, passing the current context.  (The interpreter models runs
in which no interruption is requested, so the dispatch-time cancellation
check passes; `Wait`'s sliced sleep under cancellation is modelled by
`wait_run` above.) -/
def event_run_base (c : RunContext) (s : EngineState) : EngineState :=
  if s.callback_set then
    { s with trace := s.trace ++ [.notify (resolve_path s.store c.path)] }
  else s

/-- `d[k] = v` on a Python dict modelled as an association list: replace the
first binding of `k`, else append. -/
def dict_set (d : ArgDict) (k v : String) : ArgDict :=
  match d with
  | [] => [(k, v)]
  | (k0, v0) :: rest => if k0 = k then (k, v) :: rest else (k0, v0) :: dict_set rest k v

/-- Left-pad a number with zeros to width `w` (Python's `f"{n:0w}"`). -/
def zero_pad (w n : Nat) : String :=
  let s := toString n
  String.mk (List.replicate (w - s.length) '0') ++ s

/-- The filename tag assigned to each image of an `ImageSequence`
(`sequencing_protocol.py` line 229). -/
def image_filename (seq cycle : Nat) (path_str : String) : String :=
  zero_pad 6 seq ++ "_$imageIndex_$imageLabel_C" ++ zero_pad 4 cycle ++
    "_$timestamp_P-" ++ path_str ++ ".tif"

/-- The filename tag of a `ReactionCycle` cleave command
(`sequencing_protocol.py` line 137; `label = "365"`). -/
def cleave_filename (seq cycle : Nat) (path_str : String) : String :=
  zero_pad 6 seq ++ "_$imageIndex_365_C" ++ zero_pad 4 cycle ++
    "_$timestamp_P-" ++ path_str ++ "-C.tif"

/-- The loop of `ImageSequence.run` that assigns each image its filename:
one `get_next_sequence_number()` call per image, with the current
`cycle_number` and `str(context)`. -/
def assign_filenames (images : List ArgDict) (rs : RunState) (path_str : String) :
    List ArgDict × RunState :=
  match images with
  | [] => ([], rs)
  | img :: rest =>
    let pr := rs.get_next_sequence_number
    let prs := assign_filenames rest pr.2 path_str
    (dict_set img "filename" (image_filename pr.1 rs.cycle_number path_str) :: prs.1, prs.2)

mutual

/-- The recursive interpreter: `run` of each `Event` subclass
(`sequencing_protocol.py` lines 82-296), for runs without cancellation. -/
def run_event (e : Event) (c : RunContext) (s : EngineState) : EngineState :=
  match e with
  | .Wait _ _ _ duration_ms =>
    let s1 := event_run_base c s
    { s1 with trace := s1.trace ++ [.slept duration_ms] }
  | .ImageSequence label _ _ images imaging_rest =>
    let s1 := event_run_base c s
    let pr := assign_filenames images s1.run_state (context_str s1.store c)
    { s1 with run_state := pr.2,
              trace := s1.trace ++
                [.halCmd (.run_image_sequence label pr.1 imaging_rest (output_dir c))] }
  | .SetTemperature _ _ _ temperature_kelvin =>
    let s1 := event_run_base c s
    { s1 with trace := s1.trace ++
        [.halCmd (.wait_for_temperature temperature_kelvin
          MAX_TEMPERATURE_WAIT_S MAX_TEMPERATURE_HOLD_S)] }
  | .Group _ _ _ events iterations =>
    let s1 := event_run_base c s
    group_iterations events iterations 0 c s1
  | .ReactionCycle _ _ _ events cleaving iterations =>
    let s1 := event_run_base c s
    rc_iterations events cleaving iterations 0 c s1
  termination_by (sizeOf e, 0)

/-- The inner loop shared by `Group.run` and `ReactionCycle.run`:
`for step_index, event in enumerate(self.events): event.run(context.create_child_context(event, step_index, iteration))`. -/
def run_children (events : List Event) (step_index iteration : Nat)
    (c : RunContext) (s : EngineState) : EngineState :=
  match events with
  | [] => s
  | e :: rest =>
    let pr := create_child_context s.store c e (some step_index) (some iteration)
    let s1 := run_event e pr.2 { s with store := pr.1 }
    run_children rest (step_index + 1) iteration c s1
  termination_by (sizeOf events, 0)

/-- `Group.run`'s iteration loop. -/
def group_iterations (events : List Event) (remaining iteration : Nat)
    (c : RunContext) (s : EngineState) : EngineState :=
  match remaining with
  | 0 => s
  | r + 1 => group_iterations events r (iteration + 1) c (run_children events 0 iteration c s)
  termination_by (sizeOf events, remaining + 1)

/-- `ReactionCycle.run`'s iteration loop (`sequencing_protocol.py` lines
116-143): per iteration, run the children, set the context's last node's
`step_index` to `None`, invoke the registered callback with the context,
issue the `cleave` command (whose `cleave_args` are the configured cleaving
dict with the generated `filename`), and finally increment `cycle_number`. -/
def rc_iterations (events : List Event) (cleaving : ArgDict) (remaining iteration : Nat)
    (c : RunContext) (s : EngineState) : EngineState :=
  match remaining with
  | 0 => s
  | r + 1 =>
    let s1 := run_children events 0 iteration c s
    let st2 := store_set s1.store (c.path.getLastD 0) (fun nd => { nd with step_index := none })
    let s2 := { s1 with store := st2 }
    let s3 := if s2.callback_set then
        { s2 with trace := s2.trace ++ [.notify (resolve_path s2.store c.path)] }
      else s2
    let pr := s3.run_state.get_next_sequence_number
    let fname := cleave_filename pr.1 s3.run_state.cycle_number (context_str s3.store c)
    let s4 := { s3 with run_state := pr.2,
                        trace := s3.trace ++
                          [TraceItem.halCmd (.cleave (dict_set cleaving "filename" fname) (output_dir c))] }
    let s5 := { s4 with run_state :=
        { s4.run_state with cycle_number := s4.run_state.cycle_number + 1 } }
    rc_iterations events cleaving r (iteration + 1) c s5
  termination_by (sizeOf events, remaining + 1)

end

/-! ### Expected-trace descriptions used to state the `ReactionCycle` claim -/

/-- How many sequence numbers a leaf step consumes (one per image of an
`ImageSequence`, none otherwise). -/
def leaf_seq_used : Event → Nat
  | .ImageSequence _ _ _ images _ => images.length
  | _ => 0

/-- The trace a dispatched leaf step appends after its own notification,
given the snapshot of its context, the sequence number and cycle number at
dispatch time, and the output directory. -/
def expected_leaf_items (e : Event) (snap : List NodeData) (q cyc : Nat)
    (rd : String) : List TraceItem :=
  match e with
  | .Wait _ _ _ d => [.slept d]
  | .ImageSequence label _ _ images imaging_rest =>
    [.halCmd (.run_image_sequence label
      (assign_filenames images ⟨q, cyc⟩ (snap_str snap)).1 imaging_rest rd)]
  | .SetTemperature _ _ _ t =>
    [.halCmd (.wait_for_temperature t MAX_TEMPERATURE_WAIT_S MAX_TEMPERATURE_HOLD_S)]
  | _ => []

/-- The trace of one pass over the children of a `ReactionCycle` (iteration
`i`, first step index `j`, entry sequence number `q`, cycle number `cyc`):
each child is dispatched once, in declared order, with the parent's node
showing `step_index = j + position` and `iteration = i`. -/
def expected_children_block (anc : List NodeData) (ev0 : Event) (cs : List Event)
    (j i q cyc : Nat) (rd : String) : List TraceItem :=
  match cs with
  | [] => []
  | e :: rest =>
    let snap := anc ++ [⟨ev0, some j, some i⟩, ⟨e, none, none⟩]
    (.notify snap :: expected_leaf_items e snap q cyc rd) ++
      expected_children_block anc ev0 rest (j + 1) i (q + leaf_seq_used e) cyc rd

/-- The trace appended by `r` iterations of `ReactionCycle.run` starting at
iteration `i`, sequence number `q` and cycle number `cyc`: per iteration, the
children's block, then the synthetic cleave notification (whose last path
node has `step_index = None`), then the cleave command whose filename embeds
the pre-increment cycle number. -/
def expected_rc_delta (anc : List NodeData) (ev0 : Event) (cs : List Event)
    (cleaving : ArgDict) : Nat → Nat → Nat → Nat → String → List TraceItem
  | 0, _, _, _, _ => []
  | r + 1, i, q, cyc, rd =>
    let S := (cs.map leaf_seq_used).sum
    let csnap := anc ++ [⟨ev0, none, some i⟩]
    expected_children_block anc ev0 cs 0 i q cyc rd ++
      [.notify csnap,
       .halCmd (.cleave
         (dict_set cleaving "filename" (cleave_filename (q + S) cyc (snap_str csnap)))
         rd)] ++
      expected_rc_delta anc ev0 cs cleaving r (i + 1) (q + S + 1) (cyc + 1) rd

/-- The store after one pass over the children: the parent's last node shows
the final `step_index`/`iteration`, and one fresh node per child has been
appended. -/
def after_children_store (st : List NodeData) (lid : Nat) (ev0 : Event)
    (cs : List Event) (j i : Nat) : List NodeData :=
  match cs with
  | [] => st
  | _ => st.set lid ⟨ev0, some (j + cs.length - 1), some i⟩ ++
      cs.map (fun e => ⟨e, none, none⟩)

/-- The store after `r` full `ReactionCycle` iterations starting at
iteration `i` (children nonempty): per iteration the parent's node ends as
`⟨ev0, none, some i⟩` and the children's fresh nodes accumulate. -/
def after_rc_store (lid : Nat) (ev0 : Event) (cs : List Event) :
    Nat → Nat → List NodeData → List NodeData
  | 0, _, st => st
  | r + 1, i, st =>
    after_rc_store lid ev0 cs r (i + 1)
      (st.set lid ⟨ev0, none, some i⟩ ++ cs.map (fun e => ⟨e, none, none⟩))

/-- Whether a trace item is a `cleave` HAL command. -/
def is_cleave_cmd : TraceItem → Bool
  | .halCmd (.cleave _ _) => true
  | _ => false

/-- Whether a trace item is a progress notification whose context path has
exactly `l` nodes. -/
def is_notify_of_len (l : Nat) : TraceItem → Bool
  | .notify snap => snap.length == l
  | _ => false

/-- Whether a `run_command` outcome is a raised exception. -/
def is_exn_result : RunCmdResult → Bool
  | .exn _ => true
  | _ => false

/-- The action trace of `r` consecutive failed heater-shutdown attempts
starting at attempt `i`: each attempt followed by the one-second sleep. -/
def fail_actions : Nat → Nat → List HeaterAction
  | 0, _ => []
  | r + 1, i => .attempt i :: .sleptOne :: fail_actions r (i + 1)

/-- The effect of Python's `if arg is not None: field = arg` on an optional
field. -/
def opt_update (new old : Option Nat) : Option Nat :=
  match new with
  | some v => some v
  | none => old

/-! ## Theorems -/

/-! ### C6: HAL response success normalization -/

/-- C6: for a HAL response whose success indicator is the native boolean
`true`/`false` or the literal string `"true"`/`"false"`, `boost_bool`
classifies exactly `true` and `"true"` as success, and `run_command`
accordingly returns the embedded response object on success and raises
`HalError` carrying the hardware-supplied `error_message` on failure. -/
theorem boost_bool_normalization (msg : String) (resp : ArgDict) :
    boost_bool (.bool true) = true ∧ boost_bool (.str "true") = true ∧
    boost_bool (.bool false) = false ∧ boost_bool (.str "false") = false ∧
    run_command (fun _ => false) (fun _ => some ⟨.bool true, msg, resp⟩) none 1 0 = .ret resp ∧
    run_command (fun _ => false) (fun _ => some ⟨.str "true", msg, resp⟩) none 1 0 = .ret resp ∧
    run_command (fun _ => false) (fun _ => some ⟨.bool false, msg, resp⟩) none 1 0 =
      .exn (.halError msg) ∧
    run_command (fun _ => false) (fun _ => some ⟨.str "false", msg, resp⟩) none 1 0 =
      .exn (.halError msg) :=
  ⟨rfl, rfl, rfl, rfl, rfl, rfl, rfl, rfl⟩

/-! ### C9: output directory derivation -/

/-- C9: `output_dir` returns the run-unique `root_dir`: it is a deterministic
function of the context (trivially of its path), and the same tree position
in two runs with different root output directories resolves to different
directories. -/
theorem output_dir_properties :
    (∀ c : RunContext, output_dir c = c.root_dir) ∧
    (∀ c1 c2 : RunContext, c1.path = c2.path → c1.root_dir = c2.root_dir →
      output_dir c1 = output_dir c2) ∧
    (∀ c1 c2 : RunContext, c1.root_dir ≠ c2.root_dir → output_dir c1 ≠ output_dir c2) :=
  ⟨fun _ => rfl, fun _ _ _ h => h, fun _ _ h => h⟩

/-- Witness for C9 at concrete contexts: the same tree position `[0]` under
two different run roots resolves to different directories. -/
theorem output_dir_properties_witness :
    output_dir ⟨[0], "run-A"⟩ ≠ output_dir ⟨[0], "run-B"⟩ :=
  output_dir_properties.2.2 ⟨[0], "run-A"⟩ ⟨[0], "run-B"⟩ (by decide)

/-! ### C10 / C7: the poll loop of `Hal.run_command` -/

/-- A try count strictly below the bound is not at or past it. -/
lemma triesGe_eq_false_of_lt {tc : Nat} {tries : Option Nat}
    (h : triesLt tc tries = true) : triesGe tc tries = false := by
  cases tries with
  | none => rfl
  | some n => simp only [triesLt, decide_eq_true_eq] at h; simp [triesGe]; omega

/-- `triesLt` is antitone in the try count. -/
lemma triesLt_mono {a b : Nat} {tries : Option Nat}
    (h : triesLt b tries = true) (hab : a ≤ b) : triesLt a tries = true := by
  cases tries with
  | none => rfl
  | some n => simp only [triesLt, decide_eq_true_eq] at h ⊢; omega

/-- A `run_command` outcome is a timeout exactly when it is the raised
`TimeoutError`. -/
lemma is_timeout_result_iff {res : RunCmdResult} :
    is_timeout_result res = true ↔ ∃ m, res = .exn (.timeoutError m) := by
  cases res with
  | ret d => simp [is_timeout_result]
  | diverge => simp [is_timeout_result]
  | exn e => cases e <;> simp [is_timeout_result]

/-- With the default unbounded retry budget, the poll loop never raises
`TimeoutError`, whatever happens on the wire. -/
lemma run_command_inf_no_timeout (intr : Nat → Bool) (reads : Nat → Option HalResponse) :
    ∀ fuel tc, is_timeout_result (run_command intr reads none fuel tc) = false := by
  intro fuel
  induction fuel with
  | zero => intro tc; rfl
  | succ f ih =>
    intro tc
    rw [run_command]
    by_cases h1 : (!intr tc && triesLt tc none) = true
    · rw [if_pos h1]
      cases h2 : reads tc with
      | some resp =>
        by_cases h3 : boost_bool resp.success <;> simp [h3, is_timeout_result]
      | none => exact ih (tc + 1)
    · rw [if_neg h1]
      rfl

/-- Characterization of when a bounded-`tries` poll raises `TimeoutError`:
exactly when the fuel reaches the bound and every round up to the bound is a
quiet read-timeout (no cancellation, no data). -/
lemma run_command_timeout_char (intr : Nat → Bool) (reads : Nat → Option HalResponse)
    (n : Nat) : ∀ fuel tc,
    ((∃ m, run_command intr reads (some n) fuel tc = .exn (.timeoutError m)) ↔
      (n - tc < fuel ∧ ∀ r, tc ≤ r → r < n → intr r = false ∧ reads r = none)) := by
  intro fuel
  induction fuel with
  | zero =>
    intro tc
    constructor
    · rintro ⟨m, hm⟩; cases hm
    · rintro ⟨h, -⟩; omega
  | succ f ih =>
    intro tc
    rw [run_command]
    by_cases hi : intr tc = true
    · have h1 : (!intr tc && triesLt tc (some n)) = false := by simp [hi]
      rw [h1]
      simp only [Bool.false_eq_true, if_false]
      by_cases hg : n ≤ tc
      · have : triesGe tc (some n) = true := by simp [triesGe, hg]
        rw [this]
        simp only [if_true]
        constructor
        · intro _
          refine ⟨by omega, fun r h1 h2 => absurd (by omega : tc < n) (by omega)⟩
        · intro _; exact ⟨_, rfl⟩
      · have : triesGe tc (some n) = false := by simp [triesGe]; omega
        rw [this]
        simp only [Bool.false_eq_true, if_false]
        constructor
        · rintro ⟨m, hm⟩; cases hm
        · rintro ⟨-, hq⟩
          have := (hq tc (le_refl tc) (by omega)).1
          rw [hi] at this; cases this
    · have hi' : intr tc = false := by simpa using hi
      by_cases hlt : tc < n
      · have h1 : (!intr tc && triesLt tc (some n)) = true := by
          simp [hi', triesLt, hlt]
        rw [h1]
        simp only [if_true]
        cases h2 : reads tc with
        | some resp =>
          constructor
          · intro hex
            exfalso
            by_cases h3 : boost_bool resp.success = true <;> simp [h3] at hex
          · rintro ⟨-, hq⟩
            have := (hq tc (le_refl tc) hlt).2
            rw [h2] at this; cases this
        | none =>
          rw [ih (tc + 1)]
          constructor
          · rintro ⟨hf, hq⟩
            refine ⟨by omega, fun r hr1 hr2 => ?_⟩
            rcases Nat.eq_or_lt_of_le hr1 with h | h
            · exact ⟨h ▸ hi', h ▸ h2⟩
            · exact hq r (by omega) hr2
          · rintro ⟨hf, hq⟩
            exact ⟨by omega, fun r hr1 hr2 => hq r (by omega) hr2⟩
      · have h1 : (!intr tc && triesLt tc (some n)) = false := by
          simp [triesLt]; omega
        rw [h1]
        have h2 : triesGe tc (some n) = true := by simp [triesGe]; omega
        rw [h2]
        simp only [Bool.false_eq_true, if_false, if_true]
        constructor
        · intro _
          exact ⟨by omega, fun r hr1 hr2 => absurd (by omega : tc < n) (by omega)⟩
        · intro _; exact ⟨_, rfl⟩

/-- C10: with the default `tries = float("inf")`, the poll loop never raises
`TimeoutError` on its own — it keeps polling until a response arrives or
cancellation is observed — while with a finite bound `n` it raises
`TimeoutError` exactly when `n` consecutive read timeouts occur with no
cancellation observed (and the loop runs long enough to exhaust the bound). -/
theorem run_command_timeout_policy (intr : Nat → Bool) (reads : Nat → Option HalResponse)
    (fuel n : Nat) :
    is_timeout_result (run_command intr reads none fuel 0) = false ∧
    is_timeout_result (run_command intr reads (some n) fuel 0) =
      (decide (n < fuel) && (List.range n).all (fun j => !intr j && (reads j).isNone)) := by
  refine ⟨run_command_inf_no_timeout intr reads fuel 0, ?_⟩
  rw [Bool.eq_iff_iff]
  rw [is_timeout_result_iff, run_command_timeout_char intr reads n fuel 0]
  simp only [Bool.and_eq_true, decide_eq_true_eq, List.all_eq_true, List.mem_range,
    Bool.not_eq_true', Option.isNone_iff_eq_none]
  constructor
  · rintro ⟨hf, hq⟩
    exact ⟨by omega, fun j hj => by simpa using hq j (by omega) hj⟩
  · rintro ⟨hf, hq⟩
    exact ⟨by omega, fun r _ hr => by simpa using hq r hr⟩

/-- Counterexample to C7 as stated: with cancellation already observed at the
first poll check (and a response available on the wire), `run_command`
returns the empty dict as a normal, non-error return — not a `Cancelled`
failure. -/
theorem run_command_cancel_cex :
    run_command (fun _ => true) (fun _ => some ⟨.bool true, "", [("k", "v")]⟩) none 5 0 =
      .ret [] ∧
    is_exn_result (run_command (fun _ => true)
      (fun _ => some ⟨.bool true, "", [("k", "v")]⟩) none 5 0) = false :=
  ⟨rfl, rfl⟩

/-- C7 (amended): when cancellation is observed at a poll check before any
complete response has arrived (with the retry bound not yet exhausted), the
loop exits without reading or parsing any further data, but reports this as a
normal return of the empty dict `{}` — a silent success-like return, not a
`Cancelled` failure; cancellation only surfaces as an error at the next
dispatch's cancellation check. -/
theorem run_command_cancellation_returns_empty (intr : Nat → Bool)
    (reads : Nat → Option HalResponse) (tries : Option Nat) (m : Nat) :
    ∀ fuel tc, (∀ r, tc ≤ r → r < tc + m → intr r = false ∧ reads r = none) →
      intr (tc + m) = true → triesLt (tc + m) tries = true → m < fuel →
      run_command intr reads tries fuel tc = .ret [] := by
  induction m with
  | zero =>
    intro fuel tc _ hint hlt hf
    match fuel, hf with
    | f + 1, _ =>
      rw [run_command]
      simp only [Nat.add_zero] at hint hlt
      have h1 : (!intr tc && triesLt tc tries) = false := by simp [hint]
      rw [h1]
      simp only [Bool.false_eq_true, if_false]
      rw [triesGe_eq_false_of_lt hlt]
      simp
  | succ m ih =>
    intro fuel tc hq hint hlt hf
    match fuel, hf with
    | f + 1, _ =>
      rw [run_command]
      obtain ⟨hi0, hr0⟩ := hq tc (le_refl tc) (by omega)
      have h1 : (!intr tc && triesLt tc tries) = true := by
        simp [hi0, triesLt_mono hlt (by omega : tc ≤ tc + (m + 1))]
      rw [h1]
      simp only [if_true]
      rw [hr0]
      have he : tc + 1 + m = tc + (m + 1) := by omega
      exact ih f (tc + 1) (fun r h1 h2 => hq r (by omega) (by omega))
        (by rw [he]; exact hint) (by rw [he]; exact hlt) (by omega)

/-- Witness for C7's amended behavior: with cancellation requested from round
2 on and nothing ever arriving on the wire, `run_command` returns the empty
dict as a normal return. -/
theorem run_command_cancellation_returns_empty_witness :
    run_command (fun r => decide (2 ≤ r)) (fun _ => none) none 5 0 = .ret [] := by
  exact run_command_cancellation_returns_empty (fun r => decide (2 ≤ r))
    (fun _ => none) none 2 5 0
    (fun r h1 h2 => ⟨by simp only [decide_eq_false_iff_not]; omega, rfl⟩)
    (by simp) rfl (by omega)

/-! ### C3: the heater-shutdown retry policy -/

/-- If every attempt from `i` on fails, the retry loop performs all `r`
remaining attempts, sleeping after each, and raises the heater-failure
`HalError`. -/
lemma disable_heater_aux_all_fail (ar : Nat → Except PyError ArgDict) (t : Nat) :
    ∀ r i, (∀ k, k < r → ∃ e, ar (i + k) = .error e) →
    disable_heater_aux ar t r i =
      (fail_actions r i, some (.halError (heater_fail_message t))) := by
  intro r
  induction r with
  | zero => intro i _; rfl
  | succ r ih =>
    intro i hq
    obtain ⟨e, he⟩ := hq 0 (by omega)
    rw [disable_heater_aux]
    simp only [Nat.add_zero] at he
    rw [he]
    rw [ih (i + 1) (fun k hk => by
      have := hq (k + 1) (by omega)
      rwa [show i + (k + 1) = i + 1 + k by omega] at this)]
    rfl

/-- If the first `m` attempts from `i` fail and attempt `i + m` succeeds
while the budget allows it, the loop stops right after the successful
attempt and raises nothing. -/
lemma disable_heater_aux_first_ok (ar : Nat → Except PyError ArgDict) (t : Nat) :
    ∀ m r i d, (∀ k, k < m → ∃ e, ar (i + k) = .error e) → ar (i + m) = .ok d →
      m < r →
    disable_heater_aux ar t r i = (fail_actions m i ++ [.attempt (i + m)], none) := by
  intro m
  induction m with
  | zero =>
    intro r i d _ hok hr
    match r, hr with
    | r + 1, _ =>
      rw [disable_heater_aux]
      simp only [Nat.add_zero] at hok
      rw [hok]
      simp [fail_actions]
  | succ m ih =>
    intro r i d hq hok hr
    match r, hr with
    | r + 1, _ =>
      rw [disable_heater_aux]
      obtain ⟨e, he⟩ := hq 0 (by omega)
      simp only [Nat.add_zero] at he
      rw [he]
      rw [ih r (i + 1) d (fun k hk => by
          have := hq (k + 1) (by omega)
          rwa [show i + (k + 1) = i + 1 + k by omega] at this)
        (by rwa [show i + 1 + m = i + (m + 1) by omega]) (by omega)]
      simp only [fail_actions]
      rw [show i + 1 + m = i + (m + 1) by omega]
      rfl

/-- C3 (amended): with a transport whose shutdown command always fails,
`disable_heater` attempts the command exactly `n` times with the fixed
one-second delay after each failure, swallowing each failure, and after the
`n`-th failure raises a `HalError` with the fixed heater-failure message —
the same exception class as an ordinary rejected command, distinguished only
by its message text; and if some attempt succeeds it stops immediately after
it without raising. -/
theorem disable_heater_retry_policy (ar : Nat → Except PyError ArgDict) (n : Nat) :
    ((∀ i, i < n → ∃ e, ar i = .error e) →
      disable_heater ar n = (fail_actions n 0, some (.halError (heater_fail_message n)))) ∧
    (∀ j d, j < n → (∀ i, i < j → ∃ e, ar i = .error e) → ar j = .ok d →
      disable_heater ar n = (fail_actions j 0 ++ [.attempt j], none)) := by
  constructor
  · intro hq
    exact disable_heater_aux_all_fail ar n n 0 (fun k hk => by simpa using hq k hk)
  · intro j d hj hq hok
    have := disable_heater_aux_first_ok ar n j n 0 d
      (fun k hk => by simpa using hq k hk) (by simpa using hok) hj
    simpa using this

/-- Witness for C3 at a transport rejecting every attempt with `maxTries = 3`:
exactly three attempts, each followed by the fixed delay, then the heater
`HalError`; and with a transport succeeding on the second attempt, the loop
stops there. -/
theorem disable_heater_retry_policy_witness :
    disable_heater (fun _ => .error (.halError "busy")) 3 =
      ([.attempt 0, .sleptOne, .attempt 1, .sleptOne, .attempt 2, .sleptOne],
        some (.halError (heater_fail_message 3))) ∧
    disable_heater (fun i => if i = 0 then .error (.halError "busy") else .ok []) 3 =
      ([.attempt 0, .sleptOne, .attempt 1], none) := by
  constructor
  · exact (disable_heater_retry_policy (fun _ => .error (.halError "busy")) 3).1
      (fun i _ => ⟨.halError "busy", rfl⟩)
  · exact (disable_heater_retry_policy
      (fun i => if i = 0 then .error (.halError "busy") else .ok []) 3).2 1 []
      (by decide) (fun i hi => by interval_cases i; exact ⟨.halError "busy", rfl⟩)
      rfl

/-- Counterexample to C3's distinctness clause: the error raised after
exhausting the retries is a plain `HalError` — the very same error value an
ordinary rejected command produces when the hardware supplies that message —
not a distinct `HeaterShutdownFailed` type. -/
theorem disable_heater_error_not_distinct_cex :
    (disable_heater (fun _ => .error (.halError "busy")) 3).2 =
      some (.halError (heater_fail_message 3)) ∧
    run_command (fun _ => false)
      (fun _ => some ⟨.bool false, heater_fail_message 3, []⟩) none 1 0 =
      .exn (.halError (heater_fail_message 3)) :=
  ⟨rfl, rfl⟩

/-! ### C5: cancellation latency of `Wait` -/

/-- If cancellation is requested at time `tc`, strictly after `now` but no
later than the wait's end, the sliced sleep aborts with `InterruptedError` at
the end of the slice in progress: at some `t` with `tc ≤ t`, no later than
the wait's end, and within 999 ms of the request. -/
lemma wait_loop_cancel (tc : Nat) :
    ∀ remaining now, now < tc → tc ≤ now + remaining →
    ∃ t, wait_loop (some tc) remaining now = .interruptedAt t ∧
      tc ≤ t ∧ t ≤ now + remaining ∧ t ≤ tc + 999 := by
  intro remaining
  induction remaining using Nat.strong_induction_on with
  | _ remaining ih =>
    intro now h1 h2
    match remaining with
    | 0 => omega
    | r + 1 =>
      rw [wait_loop]
      by_cases hreq : requested (some tc) (now + min (r + 1) 1000) = true
      · rw [if_pos hreq]
        simp only [requested, decide_eq_true_eq] at hreq
        exact ⟨now + min (r + 1) 1000, rfl, hreq, by omega, by omega⟩
      · rw [if_neg hreq]
        simp only [requested, decide_eq_true_eq] at hreq
        obtain ⟨t, hL, hb1, hb2, hb3⟩ :=
          ih (r + 1 - min (r + 1) 1000) (by omega) (now + min (r + 1) 1000)
            (by omega) (by omega)
        exact ⟨t, hL, hb1, by omega, hb3⟩

/-- C5 (amended): a cancellation request at any time `tc` strictly during a
`Wait` of `duration_ms` aborts the wait with `InterruptedError` at the end of
the slice in progress: within at most one slice interval (≤ 1000 ms) of the
request and no later than the full duration (equality occurs when the
request falls within the final slice). -/
theorem wait_cancellation_latency (tc d : Nat) (h : tc < d) :
    ∃ t, wait_run (some tc) d = .interruptedAt t ∧
      tc ≤ t ∧ t - tc ≤ 1000 ∧ t ≤ d := by
  by_cases h0 : tc = 0
  · refine ⟨0, ?_, by omega, by omega, by omega⟩
    rw [wait_run, if_pos (by simp [requested, h0])]
  · rw [wait_run, if_neg (by simp [requested]; omega)]
    obtain ⟨t, hL, hb1, hb2, hb3⟩ := wait_loop_cancel tc d 0 (by omega) (by omega)
    exact ⟨t, hL, hb1, by omega, by omega⟩

/-- Witness for C5 at the spec's scenario: duration 10000 ms, cancellation
requested at 2500 ms — the wait aborts within 1000 ms of the request, well
before the full duration. -/
theorem wait_cancellation_latency_witness :
    ∃ t, wait_run (some 2500) 10000 = .interruptedAt t ∧
      2500 ≤ t ∧ t - 2500 ≤ 1000 ∧ t ≤ 10000 :=
  wait_cancellation_latency 2500 10000 (by decide)

/-- Counterexample to C5 as stated: with a 2000 ms wait and cancellation
requested at 1500 ms (during the final slice), the wait aborts exactly at
2000 ms — at, not strictly before, the full duration. -/
theorem wait_cancel_at_full_duration_cex :
    wait_run (some 1500) 2000 = .interruptedAt 2000 ∧ ¬(2000 < 2000) := by
  constructor
  · rw [wait_run, if_neg (by decide)]
    rw [show (2000 : Nat) = 1999 + 1 from rfl, wait_loop]
    norm_num [requested]
    rw [show (1000 : Nat) = 999 + 1 from rfl, wait_loop]
    norm_num [requested]
  · omega

/-! ### C2: pre-order line numbering of `load_protocol_json` -/

/-- Every step's pre-order flattening starts with the step itself. -/
lemma Event.toList_cons (e : Event) : ∃ t, Event.toList e = e :: t := by
  cases e with
  | Wait label n d dm => exact ⟨[], by simp [Event.toList]⟩
  | ImageSequence label n d imgs rest => exact ⟨[], by simp [Event.toList]⟩
  | SetTemperature label n d t => exact ⟨[], by simp [Event.toList]⟩
  | Group label n d events it => exact ⟨eventsToList events, by simp [Event.toList]⟩
  | ReactionCycle label n d events c it =>
    exact ⟨eventsToList events, by simp [Event.toList]⟩

mutual

/-- `load_protocol_json p l d` returns `p.size` as the node count, roots the
tree at line `l`, assigns the pre-order flattening the contiguous lines
`l, l+1, ..., l + p.size - 1`, and gives every container a first child on the
line right after its own. -/
theorem load_spec (p : PJson) (l d : Nat) :
    (load_protocol_json p l d).2 = p.size ∧
    (load_protocol_json p l d).1.protocol_line = l ∧
    (load_protocol_json p l d).1.toList.map Event.protocol_line = List.range' l p.size ∧
    (∀ e ∈ (load_protocol_json p l d).1.toList, first_child_line_ok e = true) := by
  cases p with
  | Wait label dm =>
    refine ⟨rfl, rfl, ?_, ?_⟩
    · simp [load_protocol_json, Event.toList, PJson.size, Event.protocol_line]
    · intro e he
      simp [load_protocol_json, Event.toList] at he
      subst he
      rfl
  | ImageSequence label imgs rest =>
    refine ⟨rfl, rfl, ?_, ?_⟩
    · simp [load_protocol_json, Event.toList, PJson.size, Event.protocol_line]
    · intro e he
      simp [load_protocol_json, Event.toList] at he
      subst he
      rfl
  | SetTemperature label t =>
    refine ⟨rfl, rfl, ?_, ?_⟩
    · simp [load_protocol_json, Event.toList, PJson.size, Event.protocol_line]
    · intro e he
      simp [load_protocol_json, Event.toList] at he
      subst he
      rfl
  | Group label events iterations =>
    obtain ⟨ih1, ih2, ih3⟩ := loadChildren_spec events (l + 1) (d + 1)
    refine ⟨?_, rfl, ?_, ?_⟩
    · simp [load_protocol_json, PJson.size, ih1]
    · simp only [load_protocol_json, Event.toList, List.map_cons, Event.protocol_line,
        PJson.size, ih2]
      rw [show 1 + PJson.sizeList events = PJson.sizeList events + 1 by omega,
        List.range'_succ]
    · intro e he
      simp only [load_protocol_json, Event.toList, List.mem_cons] at he
      rcases he with he | he
      · subst he
        rcases hcs : (loadChildren events (l + 1) (d + 1)).1 with _ | ⟨c, rest⟩
        · simp [first_child_line_ok, hcs]
        · rw [hcs] at ih2
          obtain ⟨t, ht⟩ := Event.toList_cons c
          rw [show eventsToList (c :: rest) = c.toList ++ eventsToList rest from by
              rw [eventsToList], ht] at ih2
          simp only [List.cons_append, List.map_cons] at ih2
          rcases hsz : PJson.sizeList events with _ | m
          · rw [hsz] at ih2; cases ih2
          · rw [hsz, List.range'_succ] at ih2
            have hc : c.protocol_line = l + 1 := (List.cons.injEq _ _ _ _ ▸ ih2).1
            simp [first_child_line_ok, hcs, hc]
      · exact ih3 e he
  | ReactionCycle label events cleaving iterations =>
    obtain ⟨ih1, ih2, ih3⟩ := loadChildren_spec events (l + 1) (d + 1)
    refine ⟨?_, rfl, ?_, ?_⟩
    · simp [load_protocol_json, PJson.size, ih1]
    · simp only [load_protocol_json, Event.toList, List.map_cons, Event.protocol_line,
        PJson.size, ih2]
      rw [show 1 + PJson.sizeList events = PJson.sizeList events + 1 by omega,
        List.range'_succ]
    · intro e he
      simp only [load_protocol_json, Event.toList, List.mem_cons] at he
      rcases he with he | he
      · subst he
        rcases hcs : (loadChildren events (l + 1) (d + 1)).1 with _ | ⟨c, rest⟩
        · simp [first_child_line_ok, hcs]
        · rw [hcs] at ih2
          obtain ⟨t, ht⟩ := Event.toList_cons c
          rw [show eventsToList (c :: rest) = c.toList ++ eventsToList rest from by
              rw [eventsToList], ht] at ih2
          simp only [List.cons_append, List.map_cons] at ih2
          rcases hsz : PJson.sizeList events with _ | m
          · rw [hsz] at ih2; cases ih2
          · rw [hsz, List.range'_succ] at ih2
            have hc : c.protocol_line = l + 1 := (List.cons.injEq _ _ _ _ ▸ ih2).1
            simp [first_child_line_ok, hcs, hc]
      · exact ih3 e he
  termination_by sizeOf p

/-- The loop of `load_protocol_json` over a container's children: the
accumulated length is the total size, and the concatenated flattenings carry
the contiguous lines starting at the loop's entry line. -/
theorem loadChildren_spec (ps : List PJson) (l d : Nat) :
    (loadChildren ps l d).2 = PJson.sizeList ps ∧
    (eventsToList (loadChildren ps l d).1).map Event.protocol_line =
      List.range' l (PJson.sizeList ps) ∧
    (∀ e ∈ eventsToList (loadChildren ps l d).1, first_child_line_ok e = true) := by
  cases ps with
  | nil => exact ⟨rfl, by simp [loadChildren, eventsToList, PJson.sizeList], by
      simp [loadChildren, eventsToList]⟩
  | cons p rest =>
    obtain ⟨ih1, ihl, ih3, ih4⟩ := load_spec p l d
    obtain ⟨jh1, jh2, jh3⟩ := loadChildren_spec rest (l + (load_protocol_json p l d).2) d
    rw [ih1] at jh1 jh2 jh3
    refine ⟨?_, ?_, ?_⟩
    · simp [loadChildren, PJson.sizeList, ih1, jh1]
    · simp only [loadChildren, PJson.sizeList]
      rw [show eventsToList ((load_protocol_json p l d).1 :: (loadChildren rest
            (l + (load_protocol_json p l d).2) d).1) =
          (load_protocol_json p l d).1.toList ++ eventsToList (loadChildren rest
            (l + (load_protocol_json p l d).2) d).1 from by rw [eventsToList]]
      rw [List.map_append, ih3, ih1, jh2]
      have := List.range'_append l p.size (PJson.sizeList rest) 1
      simp only [one_mul] at this
      rw [this, Nat.add_comm (PJson.sizeList rest) p.size]
    · intro e he
      simp only [loadChildren] at he
      rw [ih1] at he
      rw [show eventsToList ((load_protocol_json p l d).1 :: (loadChildren rest
            (l + p.size) d).1) =
          (load_protocol_json p l d).1.toList ++ eventsToList (loadChildren rest
            (l + p.size) d).1 from by rw [eventsToList],
        List.mem_append] at he
      rcases he with he | he
      · exact ih4 e he
      · exact jh3 e he
  termination_by sizeOf ps

end

/-- C2: for every valid protocol description with `N` tree nodes, `load`
returns node count `N` and assigns `line` values forming exactly the sequence
`0 .. N-1` over the pre-order flattening (hence unique, contiguous and
monotonically increasing), with every container's first child on the line
right after the container's own. -/
theorem load_preorder_lines (p : PJson) :
    (load_protocol_json p 0 0).2 = p.size ∧
    (load_protocol_json p 0 0).2 = (load_protocol_json p 0 0).1.toList.length ∧
    (load_protocol_json p 0 0).1.toList.map Event.protocol_line =
      List.range (load_protocol_json p 0 0).2 ∧
    (load_protocol_json p 0 0).1.toList.all first_child_line_ok = true := by
  obtain ⟨h1, h2, h3, h4⟩ := load_spec p 0 0
  refine ⟨h1, ?_, ?_, ?_⟩
  · have hlen := congrArg List.length h3
    simp only [List.length_map, List.length_range'] at hlen
    rw [h1, ← hlen]
  · rw [h1, List.range_eq_range']
    exact h3
  · rw [List.all_eq_true]
    exact h4

/-! ### C8: preview frame assembly -/

/-- The payload loop accumulates exactly the missing bytes: provided every
read returns at least one byte and the stream holds enough data, it ends with
`acc` extended by exactly `size - acc.length` bytes taken off the stream. -/
lemma read_image_bytes_spec (sizes : Nat → Nat) (hpos : ∀ m, 1 ≤ sizes m) :
    ∀ fuel size (acc : List Nat) (sk : MockSocket),
      size - acc.length ≤ sk.stream.length → size - acc.length < fuel →
      ∃ k, read_image_bytes sizes fuel size acc sk =
        some (acc ++ sk.stream.take (size - acc.length),
          ⟨sk.stream.drop (size - acc.length), sk.callIdx + k⟩) := by
  intro fuel
  induction fuel with
  | zero => intro size acc sk h1 h2; omega
  | succ f ih =>
    intro size acc sk h1 h2
    rw [read_image_bytes]
    by_cases hlt : acc.length < size
    · rw [if_pos hlt]
      simp only [MockSocket.recv]
      have hm : 1 ≤ min (size - acc.length) (sizes sk.callIdx) := by
        have := hpos sk.callIdx
        omega
      have hchunk : (sk.stream.take (min (size - acc.length) (sizes sk.callIdx))).length =
          min (size - acc.length) (sizes sk.callIdx) := by
        rw [List.length_take]
        omega
      obtain ⟨k, hk⟩ := ih size
        (acc ++ sk.stream.take (min (size - acc.length) (sizes sk.callIdx)))
        ⟨sk.stream.drop (min (size - acc.length) (sizes sk.callIdx)), sk.callIdx + 1⟩
        (by
          simp only [List.length_append, hchunk, List.length_drop]
          omega)
        (by
          simp only [List.length_append, hchunk]
          omega)
      refine ⟨k + 1, ?_⟩
      simp only [List.length_append, hchunk] at hk
      have e1 : size - (acc.length + min (size - acc.length) (sizes sk.callIdx)) =
          size - acc.length - min (size - acc.length) (sizes sk.callIdx) := by omega
      rw [e1] at hk
      rw [hk]
      congr 1
      congr 1
      · conv_rhs => rw [show size - acc.length =
          min (size - acc.length) (sizes sk.callIdx) +
            (size - acc.length - min (size - acc.length) (sizes sk.callIdx)) from by omega,
          List.take_add]
        rw [List.append_assoc]
      · rw [List.drop_drop]
        have e2 : min (size - acc.length) (sizes sk.callIdx) +
            (size - acc.length - min (size - acc.length) (sizes sk.callIdx)) =
            size - acc.length := by omega
        rw [e2]
        have e3 : sk.callIdx + 1 + k = sk.callIdx + (k + 1) := by omega
        rw [e3]
    · rw [if_neg hlt]
      have hz : size - acc.length = 0 := by omega
      exact ⟨0, by rw [hz]; simp⟩

/-- C8: fed a stream beginning with an 8-byte header that declares version 0
and payload length `L`, followed by at least `L` payload bytes, and with
every read returning at least one byte, `read_preview_image` reads the
header, then assembles exactly `L` payload bytes across however many partial
reads it takes, emits exactly one frame carrying them, and leaves the stream
positioned right after the header/payload pair. -/
theorem read_preview_image_assembles (sizes : Nat → Nat) (hdr pay : List Nat)
    (i0 w h f L fuel : Nat)
    (hlen : hdr.length = 8) (hdec : decode_header hdr = (0, w, h, f, L))
    (h8 : 8 ≤ sizes i0) (hpos : ∀ m, 1 ≤ sizes m)
    (hpay : L ≤ pay.length) (hfuel : L < fuel) :
    ∃ k, read_preview_image sizes fuel ⟨hdr ++ pay, i0⟩ =
      some (⟨w, h, f, pay.take L⟩, ⟨pay.drop L, i0 + 1 + k⟩) := by
  have hmin : min PREVIEW_HEADER_SIZE (sizes i0) = 8 := by
    simp only [PREVIEW_HEADER_SIZE]
    omega
  have htake : (hdr ++ pay).take 8 = hdr := by
    rw [← hlen, List.take_left]
  have hdrop : (hdr ++ pay).drop 8 = pay := by
    rw [← hlen, List.drop_left]
  obtain ⟨k, hk⟩ := read_image_bytes_spec sizes hpos fuel L []
    ⟨pay, i0 + 1⟩ (by simpa using hpay) (by simpa using hfuel)
  simp only [List.nil_append, List.length_nil, Nat.sub_zero] at hk
  refine ⟨k, ?_⟩
  rw [read_preview_image]
  simp only [MockSocket.recv, hmin, htake, hdrop, hlen, hdec]
  rw [if_pos (show (8 : Nat) = PREVIEW_HEADER_SIZE by decide)]
  simp only [if_true]
  rw [hk]

/-- Witness for C8 at the spec's scenario: a header declaring a 100-byte
payload, delivered as reads of 60 then 40 bytes, yields exactly one 100-byte
frame consuming the whole pair. -/
theorem read_preview_image_assembles_witness :
    ∃ k, read_preview_image (fun m => if m = 1 then 60 else if m = 2 then 40 else 8)
        101 ⟨[0x00, 0x02, 0x00, 0x31, 0x00, 0x00, 0x06, 0x40] ++ List.range 100, 0⟩ =
      some (⟨2, 3, 4, (List.range 100).take 100⟩, ⟨(List.range 100).drop 100, 0 + 1 + k⟩) :=
  read_preview_image_assembles (fun m => if m = 1 then 60 else if m = 2 then 40 else 8)
    [0x00, 0x02, 0x00, 0x31, 0x00, 0x00, 0x06, 0x40] (List.range 100) 0 2 3 4 100 101
    (by decide) (by decide) (by decide)
    (by
      intro m
      by_cases h1 : m = 1
      · simp [h1]
      · by_cases h2 : m = 2 <;> simp [h1, h2])
    (by simp) (by decide)

/-! ### Store and context lemmas -/

/-- Setting an index to its current value leaves the list unchanged. -/
lemma List.set_of_getElem_eq {α : Type} {l : List α} {i : Nat} {a : α}
    (h : l[i]? = some a) : l.set i a = l := by
  apply List.ext_getElem?
  intro j
  by_cases hj : j = i
  · subst hj
    rw [h]
    have : j < l.length := (List.getElem?_eq_some_iff.mp h).1
    simp [List.getElem?_set, this, h]
  · rw [List.getElem?_set_ne (fun he => hj he.symm)]

/-- Appending to the store does not change how an all-in-range path
resolves. -/
lemma resolve_path_append_frame (st ex : List NodeData) (p : List Nat)
    (h : ∀ x ∈ p, x < st.length) : resolve_path (st ++ ex) p = resolve_path st p := by
  unfold resolve_path
  apply List.map_congr_left
  intro x hx
  rw [List.getElem?_append_left (h x hx)]

/-- Updating a node outside a path does not change how the path resolves. -/
lemma resolve_path_set_frame (st : List NodeData) (i : Nat) (nd : NodeData)
    (p : List Nat) (h : i ∉ p) :
    resolve_path (st.set i nd) p = resolve_path st p := by
  unfold resolve_path
  apply List.map_congr_left
  intro x hx
  have hne : i ≠ x := fun he => h (by rw [he]; exact hx)
  rw [List.getElem?_set_ne hne]

/-- Resolving a path with one node appended. -/
lemma resolve_path_snoc (st : List NodeData) (p : List Nat) (i : Nat) :
    resolve_path st (p ++ [i]) = resolve_path st p ++ [(st[i]?).getD dummyNode] := by
  simp [resolve_path]

/-- A resolved path has as many nodes as the path has references. -/
lemma resolve_path_length (st : List NodeData) (p : List Nat) :
    (resolve_path st p).length = p.length := by
  simp [resolve_path]

/-- Setting inside the left part of an appended store. -/
lemma set_append_of_lt (st ex : List NodeData) (i : Nat) (nd : NodeData)
    (h : i < st.length) : (st ++ ex).set i nd = st.set i nd ++ ex :=
  List.set_append_left i nd h

/-- Reading back a just-set store entry. -/
lemma getElem?_set_self_of_lt (st : List NodeData) (i : Nat) (nd : NodeData)
    (h : i < st.length) : (st.set i nd)[i]? = some nd := by
  simp [List.getElem?_set, h]

/-- `store_set` at a present index is `List.set` with the updated node. -/
lemma store_set_eq (store : List NodeData) (i : Nat) (f : NodeData → NodeData)
    (nd : NodeData) (h : store[i]? = some nd) :
    store_set store i f = store.set i (f nd) := by
  simp [store_set, h]

/-- The computed form of `create_child_context` on a well-formed context: one
fresh node appended, and the receiver's last node updated in place with the
provided `step_index`/`iteration`. -/
lemma create_child_context_eq (st : List NodeData) (p0 : List Nat) (lid : Nat)
    (rd : String) (e : Event) (si it : Option Nat) (nd0 : NodeData)
    (hlid : lid < st.length) (hnd : st[lid]? = some nd0) :
    create_child_context st ⟨p0 ++ [lid], rd⟩ e si it =
      (st.set lid ⟨nd0.event, opt_update si nd0.step_index, opt_update it nd0.iteration⟩ ++
          [⟨e, none, none⟩],
        ⟨(p0 ++ [lid]) ++ [st.length], rd⟩) := by
  have hlast : (p0 ++ [lid]).getLastD 0 = lid := by
    simp [List.getLastD_concat]
  have hnd1 : (st ++ [({ event := e } : NodeData)])[lid]? = some nd0 := by
    rw [List.getElem?_append_left hlid]
    exact hnd
  cases si with
  | none =>
    cases it with
    | none =>
      simp only [create_child_context, hlast, opt_update]
      rw [show (⟨nd0.event, nd0.step_index, nd0.iteration⟩ : NodeData) = nd0 from rfl,
        List.set_of_getElem_eq hnd]
    | some v2 =>
      simp only [create_child_context, hlast, opt_update]
      rw [store_set_eq _ _ _ _ hnd1]
      rw [set_append_of_lt st _ lid _ hlid]
  | some v1 =>
    cases it with
    | none =>
      simp only [create_child_context, hlast, opt_update]
      rw [store_set_eq _ _ _ _ hnd1]
      rw [set_append_of_lt st _ lid _ hlid]
    | some v2 =>
      simp only [create_child_context, hlast, opt_update]
      rw [store_set_eq _ _ _ _ hnd1]
      rw [store_set_eq _ _ _ _ (getElem?_set_self_of_lt _ _ _ (by simp; omega))]
      rw [List.set_set]
      rw [set_append_of_lt st _ lid _ hlid]

/-- Counterexample to C4 as stated: calling `create_child_context` with
`step_index = 0` on a context whose path holds one node changes that node's
`step_index` from `None` to `0` — the receiver's path does not resolve to the
same nodes after the call. -/
theorem create_child_context_mutation_cex :
    ((resolve_path (create_child_context [⟨.Wait "root" 0 0 100, none, none⟩]
        ⟨[0], "out"⟩ (.Wait "child" 1 1 50) (some 0) (some 0)).1 [0]).map
      NodeData.step_index = [some 0]) ∧
    ((resolve_path [⟨.Wait "root" 0 0 100, none, none⟩] [0]).map
      NodeData.step_index = [none]) ∧
    (some 0 ≠ (none : Option Nat)) :=
  ⟨rfl, rfl, by decide⟩

/-- C4 (amended): `create_child_context` returns a child context whose path
is the receiver's path with one fresh node appended (sharing the receiver's
node objects) and the same output root; it leaves the receiver's path list
and every node other than its last unchanged, but updates the receiver's last
path node in place with the provided `step_index`/`iteration` (leaving each
field unchanged when the argument is `None`); the new node starts with the
given event and empty `step_index`/`iteration`. -/
theorem create_child_context_spec (st : List NodeData) (p0 : List Nat) (lid : Nat)
    (rd : String) (e : Event) (si it : Option Nat) (nd0 : NodeData)
    (hp0 : ∀ x ∈ p0, x < st.length) (hlid : lid < st.length) (hnot : lid ∉ p0)
    (hnd : st[lid]? = some nd0) :
    (create_child_context st ⟨p0 ++ [lid], rd⟩ e si it).2.path =
      (p0 ++ [lid]) ++ [st.length] ∧
    (create_child_context st ⟨p0 ++ [lid], rd⟩ e si it).2.root_dir = rd ∧
    (create_child_context st ⟨p0 ++ [lid], rd⟩ e si it).1.length = st.length + 1 ∧
    resolve_path (create_child_context st ⟨p0 ++ [lid], rd⟩ e si it).1 p0 =
      resolve_path st p0 ∧
    (create_child_context st ⟨p0 ++ [lid], rd⟩ e si it).1[lid]? =
      some ⟨nd0.event, opt_update si nd0.step_index, opt_update it nd0.iteration⟩ ∧
    (create_child_context st ⟨p0 ++ [lid], rd⟩ e si it).1[st.length]? =
      some ⟨e, none, none⟩ := by
  rw [create_child_context_eq st p0 lid rd e si it nd0 hlid hnd]
  refine ⟨rfl, rfl, ?_, ?_, ?_, ?_⟩
  · simp
  · rw [resolve_path_append_frame _ _ _ (by simpa using hp0),
      resolve_path_set_frame _ _ _ _ hnot]
  · rw [List.getElem?_append_left (by simpa using hlid),
      getElem?_set_self_of_lt _ _ _ hlid]
  · rw [show st.length = (st.set lid ⟨nd0.event, opt_update si nd0.step_index,
        opt_update it nd0.iteration⟩).length from by simp]
    exact List.getElem?_concat_length _ _

/-- Witness for C4 at a concrete context: the child's path appends the fresh
node, and the receiver's last node now carries the provided
`step_index`/`iteration`. -/
theorem create_child_context_spec_witness :
    (create_child_context [⟨.Wait "root" 0 0 100, none, none⟩] ⟨[0], "out"⟩
        (.Wait "child" 1 1 50) (some 4) (some 7)).2.path = ([] ++ [0]) ++ [1] ∧
    (create_child_context [⟨.Wait "root" 0 0 100, none, none⟩] ⟨[0], "out"⟩
        (.Wait "child" 1 1 50) (some 4) (some 7)).1[0]? =
      some ⟨(⟨.Wait "root" 0 0 100, none, none⟩ : NodeData).event,
        opt_update (some 4) none, opt_update (some 7) none⟩ := by
  have h := create_child_context_spec [⟨.Wait "root" 0 0 100, none, none⟩] [] 0 "out"
    (.Wait "child" 1 1 50) (some 4) (some 7) ⟨.Wait "root" 0 0 100, none, none⟩
    (by simp) (by decide) (by simp) rfl
  exact ⟨h.1, h.2.2.2.2.1⟩

/-! ### C1: `ReactionCycle.run` -/

/-- Assigning filenames advances the sequence counter once per image and
leaves the cycle number unchanged. -/
lemma assign_filenames_state (images : List ArgDict) :
    ∀ (rs : RunState) (p : String),
    (assign_filenames images rs p).2 =
      ⟨rs.sequence_number + images.length, rs.cycle_number⟩ := by
  induction images with
  | nil => intro rs p; simp [assign_filenames]
  | cons img rest ih =>
    intro rs p
    simp only [assign_filenames, RunState.get_next_sequence_number, ih, List.length_cons]
    congr 1
    omega

/-- The run of a dispatched leaf step: its own notification, then its
kind-specific trace, with the sequence counter advanced by what it consumes;
the store, the cycle number and the callback flag are untouched. -/
lemma run_event_leaf_spec (e : Event) (c : RunContext) (st : List NodeData)
    (q cyc : Nat) (tr : List TraceItem) (hleaf : e.is_leaf = true) :
    run_event e c ⟨st, ⟨q, cyc⟩, tr, true⟩ =
      ⟨st, ⟨q + leaf_seq_used e, cyc⟩,
        tr ++ (.notify (resolve_path st c.path) ::
          expected_leaf_items e (resolve_path st c.path) q cyc c.root_dir), true⟩ := by
  cases e with
  | Wait label n d dm =>
    simp [run_event, event_run_base, expected_leaf_items, leaf_seq_used]
  | ImageSequence label n d imgs rest =>
    simp only [run_event, event_run_base, if_true, expected_leaf_items, leaf_seq_used]
    rw [assign_filenames_state]
    simp [context_str, output_dir]
  | SetTemperature label n d t =>
    simp [run_event, event_run_base, expected_leaf_items, leaf_seq_used, output_dir]
  | Group label n d events it => simp [Event.is_leaf] at hleaf
  | ReactionCycle label n d events cl it => simp [Event.is_leaf] at hleaf

/-- Peeling one child off `after_children_store`. -/
lemma after_children_store_cons (st : List NodeData) (lid : Nat) (ev0 : Event)
    (e : Event) (rest : List Event) (j i : Nat) (hlid : lid < st.length) :
    after_children_store st lid ev0 (e :: rest) j i =
      after_children_store (st.set lid ⟨ev0, some j, some i⟩ ++ [⟨e, none, none⟩])
        lid ev0 rest (j + 1) i := by
  cases rest with
  | nil => simp [after_children_store]
  | cons r rs =>
    simp only [after_children_store, List.map_cons, List.length_cons]
    rw [set_append_of_lt _ _ _ _ (by simpa using hlid), List.set_set]
    rw [show j + 1 + (rs.length + 1) - 1 = j + (rs.length + 1 + 1) - 1 from by omega]
    simp [List.append_assoc]

/-- `after_children_store` for a nonempty child list, in closed form. -/
lemma after_children_store_ne (st : List NodeData) (lid : Nat) (ev0 : Event)
    (cs : List Event) (j i : Nat) (hne : cs ≠ []) :
    after_children_store st lid ev0 cs j i =
      st.set lid ⟨ev0, some (j + cs.length - 1), some i⟩ ++
        cs.map (fun e => ⟨e, none, none⟩) := by
  cases cs with
  | nil => exact absurd rfl hne
  | cons e rest => rfl

/-- The store after a pass over the children keeps its left part's length and
still resolves the parent's ancestors the same way. -/
lemma after_children_store_length (st : List NodeData) (lid : Nat) (ev0 : Event)
    (cs : List Event) (j i : Nat) :
    st.length ≤ (after_children_store st lid ev0 cs j i).length := by
  cases cs with
  | nil => simp [after_children_store]
  | cons e rest => simp [after_children_store]

/-- One pass of the engine over a list of leaf children: the trace gains
exactly the expected children block, the sequence counter advances by the
children's total usage, the cycle number is untouched, and the store ends in
the closed `after_children_store` form. -/
lemma run_children_spec (p0 : List Nat) (lid : Nat) (rd : String) (ev0 : Event) :
    ∀ (cs : List Event) (j i : Nat) (st : List NodeData) (q cyc : Nat)
      (tr : List TraceItem) (aIdx aIter : Option Nat),
    (∀ e ∈ cs, e.is_leaf = true) →
    (∀ x ∈ p0, x < st.length) → lid < st.length → lid ∉ p0 →
    st[lid]? = some ⟨ev0, aIdx, aIter⟩ →
    run_children cs j i ⟨p0 ++ [lid], rd⟩ ⟨st, ⟨q, cyc⟩, tr, true⟩ =
      ⟨after_children_store st lid ev0 cs j i,
        ⟨q + (cs.map leaf_seq_used).sum, cyc⟩,
        tr ++ expected_children_block (resolve_path st p0) ev0 cs j i q cyc rd, true⟩ := by
  intro cs
  induction cs with
  | nil =>
    intro j i st q cyc tr aIdx aIter _ _ _ _ _
    simp [run_children, after_children_store, expected_children_block]
  | cons e rest ih =>
    intro j i st q cyc tr aIdx aIter hleaf hp0 hlid hnot hnd
    have hp0set : ∀ x ∈ p0, x < (st.set lid ⟨ev0, some j, some i⟩).length := by
      intro x hx
      have := hp0 x hx
      simp only [List.length_set]
      omega
    have hp0app : ∀ x ∈ p0, x < (st.set lid ⟨ev0, some j, some i⟩ ++
        [(⟨e, none, none⟩ : NodeData)]).length := by
      intro x hx
      have := hp0 x hx
      simp only [List.length_append, List.length_set, List.length_cons, List.length_nil]
      omega
    have hlidset : (st.set lid ⟨ev0, some j, some i⟩ ++
        [(⟨e, none, none⟩ : NodeData)])[lid]? = some ⟨ev0, some j, some i⟩ := by
      rw [List.getElem?_append_left (by simp only [List.length_set]; omega)]
      exact getElem?_set_self_of_lt _ _ _ hlid
    have hfresh : (st.set lid ⟨ev0, some j, some i⟩ ++
        [(⟨e, none, none⟩ : NodeData)])[st.length]? = some ⟨e, none, none⟩ := by
      rw [show st.length = (st.set lid ⟨ev0, some j, some i⟩).length from by
        simp only [List.length_set]]
      exact List.getElem?_concat_length _ _
    have hsnap : resolve_path (st.set lid ⟨ev0, some j, some i⟩ ++
        [(⟨e, none, none⟩ : NodeData)]) ((p0 ++ [lid]) ++ [st.length]) =
        resolve_path st p0 ++ [⟨ev0, some j, some i⟩, ⟨e, none, none⟩] := by
      rw [resolve_path_snoc, resolve_path_snoc, hlidset, hfresh]
      rw [resolve_path_append_frame _ _ _ hp0set, resolve_path_set_frame _ _ _ _ hnot]
      simp
    rw [run_children]
    rw [create_child_context_eq st p0 lid rd e (some j) (some i) ⟨ev0, aIdx, aIter⟩
      hlid hnd]
    simp only [opt_update]
    rw [run_event_leaf_spec e _ _ _ _ _ (hleaf e (by simp))]
    dsimp only
    rw [hsnap]
    have hih := ih (j + 1) i
      (st.set lid ⟨ev0, some j, some i⟩ ++ [⟨e, none, none⟩])
      (q + leaf_seq_used e) cyc
      (tr ++ TraceItem.notify (resolve_path st p0 ++
          [⟨ev0, some j, some i⟩, ⟨e, none, none⟩]) ::
        expected_leaf_items e (resolve_path st p0 ++
          [⟨ev0, some j, some i⟩, ⟨e, none, none⟩]) q cyc rd)
      (some j) (some i)
      (fun x hx => hleaf x (by simp [hx])) hp0app
      (by
        simp only [List.length_append, List.length_set, List.length_cons, List.length_nil]
        omega)
      hnot hlidset
    rw [hih]
    rw [← after_children_store_cons _ _ _ _ _ _ _ hlid]
    rw [resolve_path_append_frame _ _ _ hp0set, resolve_path_set_frame _ _ _ _ hnot]
    simp only [expected_children_block, List.map_cons, List.sum_cons, List.cons_append,
      List.append_assoc, List.nil_append]
    congr 2
    omega

/-- The iteration loop of `ReactionCycle.run` over leaf children: per
iteration the children's dispatches, the synthetic cleave notification with
`step_index = None` on the cycle's own node, and the cleave command embedding
the pre-increment cycle number; `cycle_number` grows by one per iteration and
the sequence counter by the children's usage plus one. -/
lemma rc_iterations_spec (p0 : List Nat) (lid : Nat) (rd : String) (ev0 : Event)
    (cs : List Event) (cleaving : ArgDict)
    (hleaf : ∀ e ∈ cs, e.is_leaf = true) (hne : cs ≠ []) :
    ∀ (r i : Nat) (st : List NodeData) (q cyc : Nat) (tr : List TraceItem)
      (aIdx aIter : Option Nat),
    (∀ x ∈ p0, x < st.length) → lid < st.length → lid ∉ p0 →
    st[lid]? = some ⟨ev0, aIdx, aIter⟩ →
    rc_iterations cs cleaving r i ⟨p0 ++ [lid], rd⟩ ⟨st, ⟨q, cyc⟩, tr, true⟩ =
      ⟨after_rc_store lid ev0 cs r i st,
        ⟨q + r * ((cs.map leaf_seq_used).sum + 1), cyc + r⟩,
        tr ++ expected_rc_delta (resolve_path st p0) ev0 cs cleaving r i q cyc rd,
        true⟩ := by
  intro r
  induction r with
  | zero =>
    intro i st q cyc tr aIdx aIter _ _ _ _
    simp [rc_iterations, after_rc_store, expected_rc_delta]
  | succ r ih =>
    intro i st q cyc tr aIdx aIter hp0 hlid hnot hnd
    have hlast : (p0 ++ [lid]).getLastD 0 = lid := by simp [List.getLastD_concat]
    have hacs := after_children_store_ne st lid ev0 cs 0 i hne
    have hlid1 : lid < (st.set lid ⟨ev0, some (0 + cs.length - 1), some i⟩).length := by
      simp only [List.length_set]
      exact hlid
    have hacslid : (after_children_store st lid ev0 cs 0 i)[lid]? =
        some ⟨ev0, some (0 + cs.length - 1), some i⟩ := by
      rw [hacs, List.getElem?_append_left hlid1]
      exact getElem?_set_self_of_lt _ _ _ hlid
    have hst2 : store_set (after_children_store st lid ev0 cs 0 i) lid
        (fun nd => { nd with step_index := none }) =
        st.set lid ⟨ev0, none, some i⟩ ++
          cs.map (fun e => (⟨e, none, none⟩ : NodeData)) := by
      rw [store_set_eq _ _ _ _ hacslid, hacs]
      rw [set_append_of_lt _ _ _ _ hlid1, List.set_set]
    have hp0' : ∀ x ∈ p0, x < (st.set lid ⟨ev0, none, some i⟩ ++
        cs.map (fun e => (⟨e, none, none⟩ : NodeData))).length := by
      intro x hx
      have := hp0 x hx
      simp only [List.length_append, List.length_set]
      omega
    have hlid' : lid < (st.set lid ⟨ev0, none, some i⟩ ++
        cs.map (fun e => (⟨e, none, none⟩ : NodeData))).length := by
      simp only [List.length_append, List.length_set]
      omega
    have hnd' : (st.set lid ⟨ev0, none, some i⟩ ++
        cs.map (fun e => (⟨e, none, none⟩ : NodeData)))[lid]? =
        some ⟨ev0, none, some i⟩ := by
      rw [List.getElem?_append_left (by simp only [List.length_set]; exact hlid)]
      exact getElem?_set_self_of_lt _ _ _ hlid
    have hanc : resolve_path (st.set lid ⟨ev0, none, some i⟩ ++
        cs.map (fun e => (⟨e, none, none⟩ : NodeData))) p0 = resolve_path st p0 := by
      rw [resolve_path_append_frame _ _ _ (by
        intro x hx
        have := hp0 x hx
        simp only [List.length_set]
        omega)]
      exact resolve_path_set_frame _ _ _ _ hnot
    have hsnap : resolve_path (st.set lid ⟨ev0, none, some i⟩ ++
        cs.map (fun e => (⟨e, none, none⟩ : NodeData))) (p0 ++ [lid]) =
        resolve_path st p0 ++ [⟨ev0, none, some i⟩] := by
      rw [resolve_path_snoc, hnd', hanc]
      rfl
    rw [rc_iterations]
    have h1 := run_children_spec p0 lid rd ev0 cs 0 i st q cyc tr aIdx aIter
      hleaf hp0 hlid hnot hnd
    rw [h1]
    dsimp only
    rw [hlast, hst2]
    simp only [reduceIte]
    dsimp only [RunState.get_next_sequence_number, context_str, output_dir]
    rw [hsnap]
    simp only [List.append_assoc, List.singleton_append, List.cons_append, List.nil_append]
    have hih := ih (i + 1) (st.set lid ⟨ev0, none, some i⟩ ++
        cs.map (fun e => (⟨e, none, none⟩ : NodeData)))
      (q + (cs.map leaf_seq_used).sum + 1) (cyc + 1)
      (tr ++ (expected_children_block (resolve_path st p0) ev0 cs 0 i q cyc rd ++
        [TraceItem.notify (resolve_path st p0 ++ [⟨ev0, none, some i⟩]),
         TraceItem.halCmd (.cleave (dict_set cleaving "filename"
           (cleave_filename (q + (cs.map leaf_seq_used).sum) cyc
             (snap_str (resolve_path st p0 ++ [⟨ev0, none, some i⟩])))) rd)]))
      none (some i) hp0' hlid' hnot hnd'
    rw [hanc] at hih
    rw [hih]
    simp only [after_rc_store, expected_rc_delta]
    simp only [List.append_assoc, List.singleton_append, List.cons_append]
    congr 1
    · congr 1
      · ring
      · omega

/-- Leaf steps issue no cleave command. -/
lemma countP_cleave_leaf_items (e : Event) (snap : List NodeData) (q cyc : Nat)
    (rd : String) :
    (expected_leaf_items e snap q cyc rd).countP is_cleave_cmd = 0 := by
  cases e <;>
    simp [expected_leaf_items, is_cleave_cmd, List.countP_cons, List.countP_nil]

/-- Leaf steps issue no notification beyond their own dispatch. -/
lemma countP_notify_leaf_items (L : Nat) (e : Event) (snap : List NodeData)
    (q cyc : Nat) (rd : String) :
    (expected_leaf_items e snap q cyc rd).countP (is_notify_of_len L) = 0 := by
  cases e <;>
    simp [expected_leaf_items, is_notify_of_len, List.countP_cons, List.countP_nil]

/-- A children's block contains no cleave command. -/
lemma countP_cleave_children_block (anc : List NodeData) (ev0 : Event) :
    ∀ (cs : List Event) (j i q cyc : Nat) (rd : String),
    (expected_children_block anc ev0 cs j i q cyc rd).countP is_cleave_cmd = 0 := by
  intro cs
  induction cs with
  | nil => intro j i q cyc rd; rfl
  | cons e rest ih =>
    intro j i q cyc rd
    simp only [expected_children_block, List.cons_append, List.countP_cons,
      List.countP_append, countP_cleave_leaf_items, ih]
    simp [is_cleave_cmd]

/-- A children's block contains exactly one dispatch notification per child,
each one path-node deeper than the cycle's own context. -/
lemma countP_notify_children_block (anc : List NodeData) (ev0 : Event) :
    ∀ (cs : List Event) (j i q cyc : Nat) (rd : String),
    (expected_children_block anc ev0 cs j i q cyc rd).countP
      (is_notify_of_len (anc.length + 2)) = cs.length := by
  intro cs
  induction cs with
  | nil => intro j i q cyc rd; rfl
  | cons e rest ih =>
    intro j i q cyc rd
    simp only [expected_children_block, List.cons_append, List.countP_cons,
      List.countP_append, countP_notify_leaf_items, ih]
    simp [is_notify_of_len, List.length_append]

/-- The `ReactionCycle` delta contains exactly one cleave command per
iteration. -/
lemma countP_cleave_rc_delta (anc : List NodeData) (ev0 : Event) (cs : List Event)
    (cleaving : ArgDict) :
    ∀ (r i q cyc : Nat) (rd : String),
    (expected_rc_delta anc ev0 cs cleaving r i q cyc rd).countP is_cleave_cmd = r := by
  intro r
  induction r with
  | zero => intro i q cyc rd; rfl
  | succ r ih =>
    intro i q cyc rd
    simp only [expected_rc_delta, List.countP_append, List.countP_cons, List.countP_nil,
      countP_cleave_children_block, ih]
    simp [is_cleave_cmd]
    omega

/-- The `ReactionCycle` delta contains exactly `children-per-iteration` child
dispatch notifications per iteration; the synthetic cleave notifications sit
at the cycle's own depth and are not counted. -/
lemma countP_notify_rc_delta (anc : List NodeData) (ev0 : Event) (cs : List Event)
    (cleaving : ArgDict) :
    ∀ (r i q cyc : Nat) (rd : String),
    (expected_rc_delta anc ev0 cs cleaving r i q cyc rd).countP
      (is_notify_of_len (anc.length + 2)) = r * cs.length := by
  intro r
  induction r with
  | zero => intro i q cyc rd; simp [expected_rc_delta]
  | succ r ih =>
    intro i q cyc rd
    have hcs : (is_notify_of_len (anc.length + 2)
        (.notify (anc ++ [⟨ev0, none, some i⟩]))) = false := by
      simp only [is_notify_of_len, List.length_append, List.length_cons, List.length_nil]
      simp
    simp only [expected_rc_delta, List.countP_append, List.countP_cons, List.countP_nil,
      countP_notify_children_block, ih, hcs]
    have : is_notify_of_len (anc.length + 2)
        (.halCmd (.cleave (dict_set cleaving "filename"
          (cleave_filename (q + (cs.map leaf_seq_used).sum) cyc
            (snap_str (anc ++ [⟨ev0, none, some i⟩])))) rd)) = false := rfl
    simp only [this]
    simp
    ring

/-- C1: running a `ReactionCycle` with `n` iterations and leaf children runs,
per iteration, each child once in declared order, then emits exactly one
synthetic cleave progress notification whose context's last path node has
`step_index = None`, then issues exactly one cleave command whose filename
embeds the value of `cycle_number` before that iteration's increment
(`c0 + i` at iteration `i`), and then increments `cycle_number` by exactly
one — so across `n` iterations `cycle_number` grows by exactly `n`, the trace
contains exactly `n * k` child dispatches and exactly `n` cleave commands,
and the whole trace delta is the expected per-iteration sequence. -/
theorem reaction_cycle_iteration_behavior
    (label : String) (ln dp : Nat) (cs : List Event) (cleaving : ArgDict) (n : Nat)
    (p0 : List Nat) (lid : Nat) (rd : String) (st : List NodeData)
    (q0 c0 : Nat) (tr : List TraceItem) (nd0 : NodeData)
    (hleaf : ∀ e ∈ cs, e.is_leaf = true) (hne : cs ≠ [])
    (hp0 : ∀ x ∈ p0, x < st.length) (hlid : lid < st.length) (hnot : lid ∉ p0)
    (hnd : st[lid]? = some nd0) :
    (run_event (.ReactionCycle label ln dp cs cleaving n) ⟨p0 ++ [lid], rd⟩
        ⟨st, ⟨q0, c0⟩, tr, true⟩).trace =
      tr ++ TraceItem.notify (resolve_path st p0 ++ [nd0]) ::
        expected_rc_delta (resolve_path st p0) nd0.event cs cleaving n 0 q0 c0 rd ∧
    (run_event (.ReactionCycle label ln dp cs cleaving n) ⟨p0 ++ [lid], rd⟩
        ⟨st, ⟨q0, c0⟩, tr, true⟩).run_state.cycle_number = c0 + n ∧
    (run_event (.ReactionCycle label ln dp cs cleaving n) ⟨p0 ++ [lid], rd⟩
        ⟨st, ⟨q0, c0⟩, tr, true⟩).run_state.sequence_number =
      q0 + n * ((cs.map leaf_seq_used).sum + 1) ∧
    ((run_event (.ReactionCycle label ln dp cs cleaving n) ⟨p0 ++ [lid], rd⟩
        ⟨st, ⟨q0, c0⟩, tr, true⟩).trace.drop tr.length).countP is_cleave_cmd = n ∧
    ((run_event (.ReactionCycle label ln dp cs cleaving n) ⟨p0 ++ [lid], rd⟩
        ⟨st, ⟨q0, c0⟩, tr, true⟩).trace.drop tr.length).countP
      (is_notify_of_len (p0.length + 2)) = n * cs.length := by
  have hbase : run_event (.ReactionCycle label ln dp cs cleaving n) ⟨p0 ++ [lid], rd⟩
      ⟨st, ⟨q0, c0⟩, tr, true⟩ =
      rc_iterations cs cleaving n 0 ⟨p0 ++ [lid], rd⟩
        ⟨st, ⟨q0, c0⟩, tr ++ [TraceItem.notify (resolve_path st p0 ++ [nd0])], true⟩ := by
    rw [run_event]
    simp only [event_run_base, reduceIte]
    rw [resolve_path_snoc, hnd]
    rfl
  have hrc := rc_iterations_spec p0 lid rd nd0.event cs cleaving hleaf hne n 0 st q0 c0
    (tr ++ [TraceItem.notify (resolve_path st p0 ++ [nd0])]) nd0.step_index nd0.iteration
    hp0 hlid hnot (by rw [hnd])
  rw [hbase, hrc]
  have hdrop : ((tr ++ [TraceItem.notify (resolve_path st p0 ++ [nd0])]) ++
      expected_rc_delta (resolve_path st p0) nd0.event cs cleaving n 0 q0 c0 rd).drop
        tr.length =
      TraceItem.notify (resolve_path st p0 ++ [nd0]) ::
        expected_rc_delta (resolve_path st p0) nd0.event cs cleaving n 0 q0 c0 rd := by
    rw [List.append_assoc, List.drop_left]
    rfl
  refine ⟨?_, rfl, rfl, ?_, ?_⟩
  · simp [List.append_assoc]
  · rw [hdrop, List.countP_cons]
    simp only [countP_cleave_rc_delta]
    simp [is_cleave_cmd]
  · rw [hdrop, List.countP_cons]
    have hlen : (resolve_path st p0).length = p0.length := resolve_path_length st p0
    rw [← hlen, countP_notify_rc_delta]
    have : is_notify_of_len ((resolve_path st p0).length + 2)
        (.notify (resolve_path st p0 ++ [nd0])) = false := by
      simp only [is_notify_of_len, List.length_append, List.length_cons, List.length_nil]
      simp
    simp [this]

/-- Witness for C1 at the spec's scenario: a `ReactionCycle` with 3 leaf
children and 2 iterations performs `2 * 3` child dispatches and 2 cleave
commands, and leaves `cycle_number` at `0 + 2`. -/
theorem reaction_cycle_iteration_behavior_witness :
    (run_event (.ReactionCycle "rc" 0 0
        [.Wait "w1" 1 1 500, .SetTemperature "t2" 2 1 300, .Wait "w3" 3 1 700]
        [("cleaving_duration_ms", "1000")] 2) ⟨[] ++ [0], "out"⟩
        ⟨[⟨.ReactionCycle "rc" 0 0
            [.Wait "w1" 1 1 500, .SetTemperature "t2" 2 1 300, .Wait "w3" 3 1 700]
            [("cleaving_duration_ms", "1000")] 2, none, none⟩],
          ⟨0, 0⟩, [], true⟩).run_state.cycle_number = 0 + 2 ∧
    ((run_event (.ReactionCycle "rc" 0 0
        [.Wait "w1" 1 1 500, .SetTemperature "t2" 2 1 300, .Wait "w3" 3 1 700]
        [("cleaving_duration_ms", "1000")] 2) ⟨[] ++ [0], "out"⟩
        ⟨[⟨.ReactionCycle "rc" 0 0
            [.Wait "w1" 1 1 500, .SetTemperature "t2" 2 1 300, .Wait "w3" 3 1 700]
            [("cleaving_duration_ms", "1000")] 2, none, none⟩],
          ⟨0, 0⟩, [], true⟩).trace.drop
        (List.length ([] : List TraceItem))).countP is_cleave_cmd = 2 ∧
    ((run_event (.ReactionCycle "rc" 0 0
        [.Wait "w1" 1 1 500, .SetTemperature "t2" 2 1 300, .Wait "w3" 3 1 700]
        [("cleaving_duration_ms", "1000")] 2) ⟨[] ++ [0], "out"⟩
        ⟨[⟨.ReactionCycle "rc" 0 0
            [.Wait "w1" 1 1 500, .SetTemperature "t2" 2 1 300, .Wait "w3" 3 1 700]
            [("cleaving_duration_ms", "1000")] 2, none, none⟩],
          ⟨0, 0⟩, [], true⟩).trace.drop
        (List.length ([] : List TraceItem))).countP
      (is_notify_of_len (List.length ([] : List Nat) + 2)) =
    2 * [Event.Wait "w1" 1 1 500, .SetTemperature "t2" 2 1 300,
        .Wait "w3" 3 1 700].length := by
  have h := reaction_cycle_iteration_behavior "rc" 0 0
    [.Wait "w1" 1 1 500, .SetTemperature "t2" 2 1 300, .Wait "w3" 3 1 700]
    [("cleaving_duration_ms", "1000")] 2 [] 0 "out"
    [⟨.ReactionCycle "rc" 0 0
        [.Wait "w1" 1 1 500, .SetTemperature "t2" 2 1 300, .Wait "w3" 3 1 700]
        [("cleaving_duration_ms", "1000")] 2, none, none⟩]
    0 0 [] ⟨.ReactionCycle "rc" 0 0
        [.Wait "w1" 1 1 500, .SetTemperature "t2" 2 1 300, .Wait "w3" 3 1 700]
        [("cleaving_duration_ms", "1000")] 2, none, none⟩
    (by decide) (by simp) (by simp) (by decide) (by simp) rfl
  exact ⟨h.2.1, h.2.2.2.1, h.2.2.2.2⟩

end Tirf
